import Mathlib

/-!
Verification of the iterative-compare engine (`src/index.js`).

The source is a small promise-driven sorted merge-diff engine.  Its control
flow is strictly sequential: every step pulls from one or both iterators,
then `_compareValues` classifies the pair, appends at most one record,
notifies progress, and schedules the next step, until both sides are
exhausted (a falsy pull) or a failure rejects the deferred.  The shallow
embedding below turns that into an explicit fuel-indexed state recursion:

* `JVal`, `jsTruthy`, `jsStrictEq`, `jsLt`, `defaultCmp` model the JavaScript
  value domain (numbers with `NaN`, booleans, `null`, `undefined`) as far as
  the default comparator and truthiness tests need it;
* `Iter`, `callIter` model the two accepted source shapes (a zero-argument
  callable or an object with a `next` method) plus the invalid shape;
* `addResult`, `compareValues`, `pullPhase`, `run` are the direct
  translations of `_addResult`, `_compareValues`, and the `_step*` family;
* `compare` models the public entry point, including the synchronous
  `Already comparing` / invalid-shape throws and the engine instance state.

Pulls are modelled as streams `ℕ → Except (JSError ε) α`: the n-th pull
either resolves with a value or rejects.  `Q.all` rejects with the first
rejection; when both pulls of a `_stepBoth` fail the model takes the left
pull's error, a timing choice the source leaves open.
-/

namespace IterativeCompare

/-- Error taxonomy of the source: the two synchronous engine throws, the
`defaultExtract` throw, and arbitrary upstream failures (rejected pulls,
throwing comparators or extractors). -/
inductive JSError (ε : Type) where
  | notInvokable
  | alreadyComparing
  | invalidExtract
  | upstream (e : ε)
deriving DecidableEq

/-- JavaScript values, as far as the default comparator and the engine's
truthiness tests need them: numbers (`ℚ` plus an explicit `NaN`), booleans,
`null` and `undefined`. -/
inductive JVal where
  | num (q : ℚ)
  | nan
  | boolv (b : Bool)
  | nullv
  | undef
deriving DecidableEq

/-- JavaScript truthiness on `JVal`: `0`, `NaN`, `false`, `null` and
`undefined` are falsy. -/
def jsTruthy : JVal → Bool
  | .num q => q != 0
  | .nan => false
  | .boolv b => b
  | .nullv => false
  | .undef => false

/-- JavaScript strict equality `===` on `JVal`: `NaN` is not equal to
anything, including itself; different types are never equal. -/
def jsStrictEq : JVal → JVal → Bool
  | .num a, .num b => a == b
  | .boolv a, .boolv b => a == b
  | .nullv, .nullv => true
  | .undef, .undef => true
  | _, _ => false

/-- JavaScript `ToNumber` on `JVal` (`none` encodes `NaN`). -/
def toNumber : JVal → Option ℚ
  | .num q => some q
  | .nan => none
  | .boolv b => some (if b then 1 else 0)
  | .nullv => some 0
  | .undef => none

/-- JavaScript `<` on `JVal`: both operands are coerced to numbers and any
comparison involving `NaN` is false. -/
def jsLt (a b : JVal) : Bool :=
  match toNumber a, toNumber b with
  | some x, some y => x < y
  | _, _ => false

/-- Translation of `defaultCmp` (`src/index.js` lines 36-38):
`a === b ? 0 : (a < b ? -1 : 1)`. -/
def defaultCmp (a b : JVal) : Int :=
  if jsStrictEq a b then 0 else if jsLt a b then -1 else 1

/-- Provenance tag of a diff record. -/
inductive Side where
  | left
  | right
  | both
deriving DecidableEq

/-- Record produced by `defaultExtract`: the JS object
`⟨value: v, exists: tag⟩` (the field called `exists` in the source is
`side` here). -/
structure DiffRec (α : Type) where
  value : α
  side : Side
deriving DecidableEq

/-- Truthiness of a possibly-absent value (`none` models JS `null` or
`undefined`, both falsy). -/
def truthyO (tr : α → Bool) : Option α → Bool
  | some v => tr v
  | none => false

/-- Translation of `defaultExtract` (lines 48-62), branching in source
order: `if (v1 && v2) both; else if (v1) left; else if (v2) right; else
throw`.  The `cmpResult` argument is ignored, as in the source. -/
def defaultExtract (tr : α → Bool) :
    Option α → Option α → Int → Except (JSError ε) (DiffRec α)
  | some a, some b, _ =>
      if tr a then
        if tr b then .ok ⟨a, .both⟩ else .ok ⟨a, .left⟩
      else if tr b then .ok ⟨b, .right⟩
      else .error .invalidExtract
  | some a, none, _ => if tr a then .ok ⟨a, .left⟩ else .error .invalidExtract
  | none, some b, _ => if tr b then .ok ⟨b, .right⟩ else .error .invalidExtract
  | none, none, _ => .error .invalidExtract

/-- A source: either a zero-argument callable, an object with a callable
`next` method, or an invalid shape.  The stream gives the settlement of the
n-th pull. -/
inductive Iter (α ε : Type) where
  | fnIter (pulls : ℕ → Except (JSError ε) α)
  | objIter (pulls : ℕ → Except (JSError ε) α)
  | badIter

/-- Whether `callIter` can invoke the source at all. -/
def validShape : Iter α ε → Bool
  | .badIter => false
  | _ => true

/-- Translation of `callIter` (lines 13-28): invoke the callable or its
`next` method and normalise the answer to a settled promise; an invalid
shape throws `Iterator does not appear to be invokable`. -/
def callIter : Iter α ε → ℕ → Except (JSError ε) α
  | .fnIter pulls, n => pulls n
  | .objIter pulls, n => pulls n
  | .badIter, _ => .error .notInvokable

/-- JS test `cmpResult === 0` with `cmpResult` possibly `null`. -/
def cmpIsZero : Option Int → Bool
  | some c => c == 0
  | none => false

/-- JS test `cmpResult < 0` with `cmpResult` possibly `null`
(`null < 0` is false). -/
def cmpNeg : Option Int → Bool
  | some c => decide (c < 0)
  | none => false

/-- JS test `cmpResult > 0` with `cmpResult` possibly `null`. -/
def cmpPos : Option Int → Bool
  | some c => decide (0 < c)
  | none => false

/-- Translation of `_addResult` (lines 115-132), minus the progress
notification (which `run` performs on the returned list): push the record
chosen by the branch cascade, or propagate the extractor's exception. -/
def addResult (tr : α → Bool)
    (ext : Option α → Option α → Int → Except (JSError ε) ρ)
    (v1 v2 : Option α) (cmpResult : Option Int) (results : List ρ) :
    Except (JSError ε) (List ρ) :=
  if cmpIsZero cmpResult && truthyO tr v1 && truthyO tr v2 then
    (ext v1 v2 0).map (fun r => results ++ [r])
  else if cmpNeg cmpResult || !truthyO tr v2 then
    (ext v1 none (-1)).map (fun r => results ++ [r])
  else if cmpPos cmpResult || !truthyO tr v1 then
    (ext none v2 1).map (fun r => results ++ [r])
  else .ok results

/-- Which `_step*` call is pending, together with the value the engine keeps
on the non-advancing side (`none` models the JS `undefined` passed by the
argument-less calls). -/
inductive Mode (α : Type) where
  | stepBoth
  | stepLeft (rightVal : Option α)
  | stepRight (leftVal : Option α)

/-- Decision taken by one `_compareValues` call: reject the deferred,
resolve it with the accumulated results, or push `rs` (already notified) and
schedule the next step. -/
inductive CvOut (α ε ρ : Type) where
  | reject (e : JSError ε)
  | resolve
  | nextStep (rs : List ρ) (m : Mode α)

/-- Translation of `_compareValues` (lines 140-167) together with `_step`
(lines 175-185): branch on truthiness in source order, compare, add the
result, and select the next step.  Exceptions thrown by the comparator or
the extractor escape the promise callback and reject the deferred. -/
def compareValues (tr : α → Bool) (cmp : α → α → Except (JSError ε) Int)
    (ext : Option α → Option α → Int → Except (JSError ε) ρ)
    (v1 v2 : Option α) (results : List ρ) : CvOut α ε ρ :=
  match v1, v2 with
  | some a, some b =>
      if tr a && tr b then
        match cmp a b with
        | .error e => .reject e
        | .ok c =>
            match addResult tr ext (some a) (some b) (some c) results with
            | .error e => .reject e
            | .ok rs =>
                if c = 0 then .nextStep rs .stepBoth
                else if c < 0 then .nextStep rs (.stepLeft (some b))
                else .nextStep rs (.stepRight (some a))
      else if tr a then
        match addResult tr ext (some a) (some b) none results with
        | .error e => .reject e
        | .ok rs => .nextStep rs (.stepLeft none)
      else if tr b then
        match addResult tr ext (some a) (some b) none results with
        | .error e => .reject e
        | .ok rs => .nextStep rs (.stepRight none)
      else .resolve
  | some a, none =>
      if tr a then
        match addResult tr ext (some a) none none results with
        | .error e => .reject e
        | .ok rs => .nextStep rs (.stepLeft none)
      else .resolve
  | none, some b =>
      if tr b then
        match addResult tr ext none (some b) none results with
        | .error e => .reject e
        | .ok rs => .nextStep rs (.stepRight none)
      else .resolve
  | none, none => .resolve

/-- The pull phase of one step (`_stepBoth` / `_stepLeft` / `_stepRight`,
lines 191-223): which pulls are issued, advancing the per-source pull
counters, and the joint value pair handed to `_compareValues`.  In
`_stepBoth` both pulls are issued before `Q.all` can reject, so both
counters advance even on failure. -/
def pullPhase (it1 it2 : Iter α ε) :
    Mode α → ℕ → ℕ → Except (JSError ε) (Option α × Option α) × ℕ × ℕ
  | .stepBoth, i, j =>
      ((match callIter it1 i, callIter it2 j with
        | .error e, _ => .error e
        | .ok _, .error e => .error e
        | .ok a, .ok b => .ok (some a, some b)), i + 1, j + 1)
  | .stepLeft rv, i, j =>
      ((match callIter it1 i with
        | .error e => .error e
        | .ok a => .ok (some a, rv)), i + 1, j)
  | .stepRight lv, i, j =>
      ((match callIter it2 j with
        | .error e => .error e
        | .ok b => .ok (lv, some b)), i, j + 1)

/-- Observable outcome of the asynchronous part of a run: the progress
notifications in order, the number of pulls issued on each source, the final
accumulator, and the deferred's settlement (`none` while still pending). -/
structure RunOut (ε ρ : Type) where
  notes : List (List ρ)
  pulls1 : ℕ
  pulls2 : ℕ
  results : List ρ
  settled : Option (Except (JSError ε) (List ρ))

/-- The engine's asynchronous step loop: pull according to the pending mode,
run `_compareValues`, and either settle the deferred or notify progress and
continue.  `fuel` bounds the number of steps; running out of fuel leaves the
deferred pending, which is also what the real engine does on sources that
never exhaust. -/
def run (tr : α → Bool) (cmp : α → α → Except (JSError ε) Int)
    (ext : Option α → Option α → Int → Except (JSError ε) ρ)
    (it1 it2 : Iter α ε) :
    ℕ → Mode α → ℕ → ℕ → List ρ → List (List ρ) → RunOut ε ρ
  | 0, _, i, j, results, notes => ⟨notes, i, j, results, none⟩
  | fuel + 1, m, i, j, results, notes =>
      match pullPhase it1 it2 m i j with
      | (.error e, i2, j2) => ⟨notes, i2, j2, results, some (.error e)⟩
      | (.ok (v1, v2), i2, j2) =>
          match compareValues tr cmp ext v1 v2 results with
          | .reject e => ⟨notes, i2, j2, results, some (.error e)⟩
          | .resolve => ⟨notes, i2, j2, results, some (.ok results)⟩
          | .nextStep rs m2 =>
              run tr cmp ext it1 it2 fuel m2 i2 j2 rs (notes ++ [rs])

/-- Mutable state of an `IterativeCompare` instance: the two iterator slots,
the `_results` accumulator and whether `_deferred` has been set. -/
structure EngineState (α ε ρ : Type) where
  iter1 : Option (Iter α ε)
  iter2 : Option (Iter α ε)
  results : List ρ
  deferredSet : Bool

/-- State of a freshly constructed instance (`_deferred = null`). -/
def initState : EngineState α ε ρ := ⟨none, none, [], false⟩

/-- Everything a caller of `compare` can observe: the synchronous exception
if one escaped, the deferred's settlement, the notifications, and the pulls
issued on each source. -/
structure CompareResult (ε ρ : Type) where
  thrown : Option (JSError ε)
  settled : Option (Except (JSError ε) (List ρ))
  notes : List (List ρ)
  pulls1 : ℕ
  pulls2 : ℕ

/-- Translation of `compare` (lines 89-106).  A set deferred throws
`Already comparing` before touching any state.  Otherwise the iterators and
an empty accumulator are stored, the deferred is created, and `_stepBoth`
runs: its two synchronous `callIter` calls are issued left to right, so an
invalid first source throws before any pull, while an invalid second source
throws after one pull on the first; the exception escapes `compare` and the
deferred stays pending. -/
def compare (tr : α → Bool) (cmp : α → α → Except (JSError ε) Int)
    (ext : Option α → Option α → Int → Except (JSError ε) ρ)
    (s : EngineState α ε ρ) (it1 it2 : Iter α ε) (fuel : ℕ) :
    EngineState α ε ρ × CompareResult ε ρ :=
  if s.deferredSet then
    (s, ⟨some .alreadyComparing, none, [], 0, 0⟩)
  else if validShape it1 = false then
    (⟨some it1, some it2, [], true⟩, ⟨some .notInvokable, none, [], 0, 0⟩)
  else if validShape it2 = false then
    (⟨some it1, some it2, [], true⟩, ⟨some .notInvokable, none, [], 1, 0⟩)
  else
    let out := run tr cmp ext it1 it2 fuel .stepBoth 0 0 [] []
    (⟨some it1, some it2, out.results, true⟩,
     ⟨none, out.settled, out.notes, out.pulls1, out.pulls2⟩)

/-- A list-backed source: the n-th pull resolves with the n-th element, and
with the designated exhaustion value `fal` past the end. -/
def fromList (fal : α) (l : List α) : ℕ → Except (JSError ε) α :=
  fun n => .ok (l.getD n fal)

/-- A comparator that never throws. -/
def pureCmp (c : α → α → Int) : α → α → Except (JSError ε) Int :=
  fun a b => .ok (c a b)

/-- The natural-order comparator on integers, the `defaultCmp` recipe at
integer values. -/
def intCmp (a b : ℤ) : Int :=
  if a = b then 0 else if a < b then -1 else 1

/-- Integer truthiness: zero is falsy, mirroring JS numbers. -/
def intTruthy (z : ℤ) : Bool := z != 0

/-- Spec-side reference function, written from the spec's words rather than
the source: the three-way sorted-merge comparison of two sequences under a
comparator — a `both` record per element of the ordered intersection, a
`left` record per element of A not matched in B (in A's order), a `right`
record per element of B not matched in A (in B's order), interleaved in
merge order. -/
def mergeSpec (c : α → α → Int) : List α → List α → List (DiffRec α)
  | a :: as, b :: bs =>
      if c a b = 0 then ⟨a, .both⟩ :: mergeSpec c as bs
      else if c a b < 0 then ⟨a, .left⟩ :: mergeSpec c as (b :: bs)
      else ⟨b, .right⟩ :: mergeSpec c (a :: as) bs
  | a :: as, [] => ⟨a, .left⟩ :: mergeSpec c as []
  | [], b :: bs => ⟨b, .right⟩ :: mergeSpec c [] bs
  | [], [] => []
termination_by l1 l2 => l1.length + l2.length
decreasing_by all_goals (simp only [List.length_cons]; omega)

/-- Elements of the left source still to be consumed when the run sits in
mode `m` with `i` pulls already issued on a list-backed left source: a value
held by `_stepRight` has been pulled but not consumed. -/
def remA (A : List α) (i : ℕ) : Mode α → List α
  | .stepRight (some a) => a :: A.drop i
  | .stepRight none => []
  | _ => A.drop i

/-- Right-source counterpart of `remA`. -/
def remB (B : List α) (j : ℕ) : Mode α → List α
  | .stepLeft (some b) => b :: B.drop j
  | .stepLeft none => []
  | _ => B.drop j

/-- The value held by a pending one-sided step, when present, is truthy. -/
def modeOK (tr : α → Bool) : Mode α → Prop
  | .stepLeft (some b) => tr b = true
  | .stepRight (some a) => tr a = true
  | _ => True

/-- The notification lists grow from `base` one appended record at a time. -/
def chainFrom (base : List ρ) : List (List ρ) → Prop
  | [] => True
  | n :: rest => (∃ r, n = base ++ [r]) ∧ chainFrom n rest

/-- The last snapshot of a notification chain starting from `base`. -/
def lastSnap (base : List ρ) : List (List ρ) → List ρ
  | [] => base
  | n :: rest => lastSnap n rest

/-- A pull stream observed through the engine's truthiness test: a truthy
value is kept, any falsy value is collapsed to `none`.  Two streams with the
same projection are indistinguishable to the engine. -/
def truthyProj (tr : α → Bool) (p : ℕ → Except (JSError ε) α) (n : ℕ) :
    Except (JSError ε) (Option α) :=
  (p n).map (fun v => if tr v then some v else none)

/-- `truthyProj` on a single optional value. -/
def optProj (tr : α → Bool) : Option α → Option α
  | some v => if tr v then some v else none
  | none => none

/-! ## Helper lemmas -/

theorem drop_cons_facts (d : α) :
    ∀ (l : List α) (i : ℕ) (a : α) (t : List α),
      l.drop i = a :: t → l.getD i d = a ∧ l.drop (i + 1) = t ∧ a ∈ l := by
  intro l
  induction l with
  | nil => intro i a t h; simp at h
  | cons x xs ih =>
      intro i a t h
      cases i with
      | zero =>
          simp only [List.drop_zero] at h
          cases h
          exact ⟨rfl, by simp, List.mem_cons_self _ _⟩
      | succ k =>
          rw [List.drop_succ_cons] at h
          obtain ⟨h1, h2, h3⟩ := ih k a t h
          exact ⟨by simpa using h1, by simpa [List.drop_succ_cons] using h2,
                 List.mem_cons_of_mem _ h3⟩

theorem drop_nil_facts (d : α) (l : List α) (i : ℕ) (h : l.drop i = []) :
    l.getD i d = d ∧ l.drop (i + 1) = [] := by
  have hle : l.length ≤ i := List.drop_eq_nil_iff.mp h
  constructor
  · exact List.getD_eq_default _ _ hle
  · exact List.drop_eq_nil_iff.mpr (Nat.le_succ_of_le hle)

theorem cv_both_truthy (tr : α → Bool) (cmp : α → α → Except (JSError ε) Int)
    (ext : Option α → Option α → Int → Except (JSError ε) ρ)
    (a b : α) (results : List ρ) (h1 : tr a = true) (h2 : tr b = true) :
    compareValues tr cmp ext (some a) (some b) results =
      match cmp a b with
      | .error e => .reject e
      | .ok c =>
          match addResult tr ext (some a) (some b) (some c) results with
          | .error e => .reject e
          | .ok rs =>
              if c = 0 then .nextStep rs .stepBoth
              else if c < 0 then .nextStep rs (.stepLeft (some b))
              else .nextStep rs (.stepRight (some a)) := by
  simp [compareValues, h1, h2]

theorem cv_both_default (tr : α → Bool) (c : α → α → Int) (a b : α)
    (results : List (DiffRec α)) (h1 : tr a = true) (h2 : tr b = true) :
    compareValues tr (pureCmp c) (defaultExtract tr) (some a) (some b) results =
      (if c a b = 0 then .nextStep (results ++ [⟨a, .both⟩]) .stepBoth
       else if c a b < 0 then .nextStep (results ++ [⟨a, .left⟩]) (.stepLeft (some b))
       else .nextStep (results ++ [⟨b, .right⟩]) (.stepRight (some a)) :
        CvOut α ε (DiffRec α)) := by
  rcases lt_trichotomy (c a b) 0 with hc | hc | hc
  · simp [compareValues, h1, h2, pureCmp, addResult, cmpIsZero, cmpNeg, truthyO,
      defaultExtract, hc, hc.ne, Except.map, not_lt.mpr hc.le]
  · simp [compareValues, h1, h2, pureCmp, addResult, cmpIsZero, cmpNeg, truthyO,
      defaultExtract, hc, Except.map]
  · simp [compareValues, h1, h2, pureCmp, addResult, cmpIsZero, cmpNeg, cmpPos, truthyO,
      defaultExtract, hc, hc.ne', Except.map, not_lt.mpr hc.le]

theorem cv_left_only (tr : α → Bool) (cmp : α → α → Except (JSError ε) Int)
    (ext : Option α → Option α → Int → Except (JSError ε) ρ)
    (a : α) (v2 : Option α) (results : List ρ)
    (h1 : tr a = true) (h2 : truthyO tr v2 = false) :
    compareValues tr cmp ext (some a) v2 results =
      match ext (some a) none (-1) with
      | .error e => .reject e
      | .ok r => .nextStep (results ++ [r]) (.stepLeft none) := by
  cases v2 with
  | none =>
      cases hext : ext (some a) none (-1) <;>
        simp [compareValues, h1, addResult, cmpIsZero, cmpNeg, truthyO, hext, Except.map]
  | some b =>
      have hb : tr b = false := by simpa [truthyO] using h2
      cases hext : ext (some a) none (-1) <;>
        simp [compareValues, h1, hb, addResult, cmpIsZero, cmpNeg, truthyO, hext, Except.map]

theorem cv_right_only (tr : α → Bool) (cmp : α → α → Except (JSError ε) Int)
    (ext : Option α → Option α → Int → Except (JSError ε) ρ)
    (v1 : Option α) (b : α) (results : List ρ)
    (h1 : truthyO tr v1 = false) (h2 : tr b = true) :
    compareValues tr cmp ext v1 (some b) results =
      match ext none (some b) 1 with
      | .error e => .reject e
      | .ok r => .nextStep (results ++ [r]) (.stepRight none) := by
  cases v1 with
  | none =>
      cases hext : ext none (some b) 1 <;>
        simp [compareValues, h2, addResult, cmpIsZero, cmpNeg, cmpPos, truthyO, hext, Except.map]
  | some a =>
      have ha : tr a = false := by simpa [truthyO] using h1
      cases hext : ext none (some b) 1 <;>
        simp [compareValues, ha, h2, addResult, cmpIsZero, cmpNeg, cmpPos, truthyO, hext,
          Except.map]

theorem cv_resolve (tr : α → Bool) (cmp : α → α → Except (JSError ε) Int)
    (ext : Option α → Option α → Int → Except (JSError ε) ρ)
    (v1 v2 : Option α) (results : List ρ)
    (h1 : truthyO tr v1 = false) (h2 : truthyO tr v2 = false) :
    compareValues tr cmp ext v1 v2 results = .resolve := by
  cases v1 <;> cases v2 <;> simp_all [compareValues, truthyO]

theorem run_merge (tr : α → Bool) (fal : α) (c : α → α → Int)
    (A B : List α) (hfal : tr fal = false)
    (hA : ∀ a ∈ A, tr a = true) (hB : ∀ b ∈ B, tr b = true) :
    ∀ (fuel : ℕ) (m : Mode α) (i j : ℕ) (results : List (DiffRec α))
      (notes : List (List (DiffRec α))),
      modeOK tr m →
      (remA A i m).length + (remB B j m).length + 1 ≤ fuel →
      (run tr (pureCmp c) (defaultExtract tr)
          (Iter.fnIter (fromList fal A)) (Iter.fnIter (fromList fal B))
          fuel m i j results notes : RunOut ε (DiffRec α)).settled
        = some (.ok (results ++ mergeSpec c (remA A i m) (remB B j m))) := by
  intro fuel
  induction fuel with
  | zero =>
      intro m i j results notes _ hfuel
      omega
  | succ n ih =>
      intro m i j results notes hm hfuel
      cases m with
      | stepBoth =>
          simp only [remA, remB] at hfuel ⊢
          rcases hdA : A.drop i with - | ⟨a, as2⟩ <;>
            rcases hdB : B.drop j with - | ⟨b, bs2⟩
          · obtain ⟨hga, -⟩ := drop_nil_facts fal A i hdA
            obtain ⟨hgb, -⟩ := drop_nil_facts fal B j hdB
            have hcv : compareValues tr (pureCmp c) (defaultExtract tr)
                (some fal) (some fal) results
                = (.resolve : CvOut α ε (DiffRec α)) :=
              cv_resolve _ _ _ _ _ _ (by simp [truthyO, hfal]) (by simp [truthyO, hfal])
            simp only [run, pullPhase, callIter, fromList, hga, hgb, hcv]
            simp [hdA, hdB, mergeSpec]
          · obtain ⟨hga, -⟩ := drop_nil_facts fal A i hdA
            obtain ⟨hgb, hdB2, hbmem⟩ := drop_cons_facts fal B j b bs2 hdB
            have htb := hB b hbmem
            have hcv : compareValues tr (pureCmp c) (defaultExtract tr)
                (some fal) (some b) results
                = (.nextStep (results ++ [⟨b, .right⟩]) (.stepRight none) :
                    CvOut α ε (DiffRec α)) := by
              rw [cv_right_only tr _ _ _ _ _ (by simp [truthyO, hfal]) htb]
              simp [defaultExtract, htb]
            have hfuel2 : (remA A (i + 1) (Mode.stepRight none) : List α).length
                + (remB B (j + 1) (Mode.stepRight none)).length + 1 ≤ n := by
              rw [hdA, hdB] at hfuel
              simp [remA, remB, hdB2] at *
              omega
            simp only [run, pullPhase, callIter, fromList, hga, hgb, hcv]
            rw [ih (.stepRight none) (i + 1) (j + 1) _ _ trivial hfuel2]
            simp [remA, remB, hdA, hdB, hdB2, mergeSpec]
          · obtain ⟨hga, hdA2, hamem⟩ := drop_cons_facts fal A i a as2 hdA
            obtain ⟨hgb, -⟩ := drop_nil_facts fal B j hdB
            have hta := hA a hamem
            have hcv : compareValues tr (pureCmp c) (defaultExtract tr)
                (some a) (some fal) results
                = (.nextStep (results ++ [⟨a, .left⟩]) (.stepLeft none) :
                    CvOut α ε (DiffRec α)) := by
              rw [cv_left_only tr _ _ _ _ _ hta (by simp [truthyO, hfal])]
              simp [defaultExtract, hta]
            have hfuel2 : (remA A (i + 1) (Mode.stepLeft none) : List α).length
                + (remB B (j + 1) (Mode.stepLeft none)).length + 1 ≤ n := by
              rw [hdA, hdB] at hfuel
              simp [remA, remB, hdA2] at *
              omega
            simp only [run, pullPhase, callIter, fromList, hga, hgb, hcv]
            rw [ih (.stepLeft none) (i + 1) (j + 1) _ _ trivial hfuel2]
            simp [remA, remB, hdA, hdB, hdA2, mergeSpec]
          · obtain ⟨hga, hdA2, hamem⟩ := drop_cons_facts fal A i a as2 hdA
            obtain ⟨hgb, hdB2, hbmem⟩ := drop_cons_facts fal B j b bs2 hdB
            have hta := hA a hamem
            have htb := hB b hbmem
            rcases lt_trichotomy (c a b) 0 with hc | hc | hc
            · have hcv : compareValues tr (pureCmp c) (defaultExtract tr)
                  (some a) (some b) results
                  = (.nextStep (results ++ [⟨a, .left⟩]) (.stepLeft (some b)) :
                      CvOut α ε (DiffRec α)) := by
                rw [cv_both_default tr c a b results hta htb]
                simp [hc, hc.ne]
              have hfuel2 : (remA A (i + 1) (Mode.stepLeft (some b)) : List α).length
                  + (remB B (j + 1) (Mode.stepLeft (some b))).length + 1 ≤ n := by
                rw [hdA, hdB] at hfuel
                simp [remA, remB, hdA2, hdB2] at *
                omega
              simp only [run, pullPhase, callIter, fromList, hga, hgb, hcv]
              rw [ih (.stepLeft (some b)) (i + 1) (j + 1) _ _ htb hfuel2]
              simp [remA, remB, hdA, hdB, hdA2, hdB2, mergeSpec, hc, hc.ne]
            · have hcv : compareValues tr (pureCmp c) (defaultExtract tr)
                  (some a) (some b) results
                  = (.nextStep (results ++ [⟨a, .both⟩]) .stepBoth :
                      CvOut α ε (DiffRec α)) := by
                rw [cv_both_default tr c a b results hta htb]
                simp [hc]
              have hfuel2 : (remA A (i + 1) (Mode.stepBoth : Mode α)).length
                  + (remB B (j + 1) (Mode.stepBoth : Mode α)).length + 1 ≤ n := by
                rw [hdA, hdB] at hfuel
                simp [remA, remB, hdA2, hdB2] at *
                omega
              simp only [run, pullPhase, callIter, fromList, hga, hgb, hcv]
              rw [ih .stepBoth (i + 1) (j + 1) _ _ trivial hfuel2]
              simp [remA, remB, hdA, hdB, hdA2, hdB2, mergeSpec, hc]
            · have hcv : compareValues tr (pureCmp c) (defaultExtract tr)
                  (some a) (some b) results
                  = (.nextStep (results ++ [⟨b, .right⟩]) (.stepRight (some a)) :
                      CvOut α ε (DiffRec α)) := by
                rw [cv_both_default tr c a b results hta htb]
                simp [hc.ne', not_lt.mpr hc.le]
              have hfuel2 : (remA A (i + 1) (Mode.stepRight (some a)) : List α).length
                  + (remB B (j + 1) (Mode.stepRight (some a))).length + 1 ≤ n := by
                rw [hdA, hdB] at hfuel
                simp [remA, remB, hdA2, hdB2] at *
                omega
              simp only [run, pullPhase, callIter, fromList, hga, hgb, hcv]
              rw [ih (.stepRight (some a)) (i + 1) (j + 1) _ _ hta hfuel2]
              simp [remA, remB, hdA, hdB, hdA2, hdB2, mergeSpec, hc.ne', not_lt.mpr hc.le]
      | stepLeft rv =>
          cases rv with
          | some b =>
              have htb : tr b = true := hm
              simp only [remA, remB] at hfuel ⊢
              rcases hdA : A.drop i with - | ⟨a, as2⟩
              · obtain ⟨hga, -⟩ := drop_nil_facts fal A i hdA
                have hcv : compareValues tr (pureCmp c) (defaultExtract tr)
                    (some fal) (some b) results
                    = (.nextStep (results ++ [⟨b, .right⟩]) (.stepRight none) :
                        CvOut α ε (DiffRec α)) := by
                  rw [cv_right_only tr _ _ _ _ _ (by simp [truthyO, hfal]) htb]
                  simp [defaultExtract, htb]
                have hfuel2 : (remA A (i + 1) (Mode.stepRight none) : List α).length
                    + (remB B j (Mode.stepRight none)).length + 1 ≤ n := by
                  rw [hdA] at hfuel
                  simp [remA, remB] at *
                  omega
                simp only [run, pullPhase, callIter, fromList, hga, hcv]
                rw [ih (.stepRight none) (i + 1) j _ _ trivial hfuel2]
                simp [remA, remB, hdA, mergeSpec]
              · obtain ⟨hga, hdA2, hamem⟩ := drop_cons_facts fal A i a as2 hdA
                have hta := hA a hamem
                rcases lt_trichotomy (c a b) 0 with hc | hc | hc
                · have hcv : compareValues tr (pureCmp c) (defaultExtract tr)
                      (some a) (some b) results
                      = (.nextStep (results ++ [⟨a, .left⟩]) (.stepLeft (some b)) :
                          CvOut α ε (DiffRec α)) := by
                    rw [cv_both_default tr c a b results hta htb]
                    simp [hc, hc.ne]
                  have hfuel2 : (remA A (i + 1) (Mode.stepLeft (some b)) : List α).length
                      + (remB B j (Mode.stepLeft (some b))).length + 1 ≤ n := by
                    rw [hdA] at hfuel
                    simp [remA, remB, hdA2] at *
                    omega
                  simp only [run, pullPhase, callIter, fromList, hga, hcv]
                  rw [ih (.stepLeft (some b)) (i + 1) j _ _ htb hfuel2]
                  simp [remA, remB, hdA, hdA2, mergeSpec, hc, hc.ne]
                · have hcv : compareValues tr (pureCmp c) (defaultExtract tr)
                      (some a) (some b) results
                      = (.nextStep (results ++ [⟨a, .both⟩]) .stepBoth :
                          CvOut α ε (DiffRec α)) := by
                    rw [cv_both_default tr c a b results hta htb]
                    simp [hc]
                  have hfuel2 : (remA A (i + 1) (Mode.stepBoth : Mode α)).length
                      + (remB B j (Mode.stepBoth : Mode α)).length + 1 ≤ n := by
                    rw [hdA] at hfuel
                    simp [remA, remB, hdA2] at *
                    omega
                  simp only [run, pullPhase, callIter, fromList, hga, hcv]
                  rw [ih .stepBoth (i + 1) j _ _ trivial hfuel2]
                  simp [remA, remB, hdA, hdA2, mergeSpec, hc]
                · have hcv : compareValues tr (pureCmp c) (defaultExtract tr)
                      (some a) (some b) results
                      = (.nextStep (results ++ [⟨b, .right⟩]) (.stepRight (some a)) :
                          CvOut α ε (DiffRec α)) := by
                    rw [cv_both_default tr c a b results hta htb]
                    simp [hc.ne', not_lt.mpr hc.le]
                  have hfuel2 : (remA A (i + 1) (Mode.stepRight (some a)) : List α).length
                      + (remB B j (Mode.stepRight (some a))).length + 1 ≤ n := by
                    rw [hdA] at hfuel
                    simp [remA, remB, hdA2] at *
                    omega
                  simp only [run, pullPhase, callIter, fromList, hga, hcv]
                  rw [ih (.stepRight (some a)) (i + 1) j _ _ hta hfuel2]
                  simp [remA, remB, hdA, hdA2, mergeSpec, hc.ne', not_lt.mpr hc.le]
          | none =>
              simp only [remA, remB] at hfuel ⊢
              rcases hdA : A.drop i with - | ⟨a, as2⟩
              · obtain ⟨hga, -⟩ := drop_nil_facts fal A i hdA
                have hcv : compareValues tr (pureCmp c) (defaultExtract tr)
                    (some fal) none results
                    = (.resolve : CvOut α ε (DiffRec α)) :=
                  cv_resolve _ _ _ _ _ _ (by simp [truthyO, hfal]) (by simp [truthyO])
                simp only [run, pullPhase, callIter, fromList, hga, hcv]
                simp [hdA, mergeSpec]
              · obtain ⟨hga, hdA2, hamem⟩ := drop_cons_facts fal A i a as2 hdA
                have hta := hA a hamem
                have hcv : compareValues tr (pureCmp c) (defaultExtract tr)
                    (some a) none results
                    = (.nextStep (results ++ [⟨a, .left⟩]) (.stepLeft none) :
                        CvOut α ε (DiffRec α)) := by
                  rw [cv_left_only tr _ _ _ _ _ hta (by simp [truthyO])]
                  simp [defaultExtract, hta]
                have hfuel2 : (remA A (i + 1) (Mode.stepLeft none) : List α).length
                    + (remB B j (Mode.stepLeft none)).length + 1 ≤ n := by
                  rw [hdA] at hfuel
                  simp [remA, remB, hdA2] at *
                  omega
                simp only [run, pullPhase, callIter, fromList, hga, hcv]
                rw [ih (.stepLeft none) (i + 1) j _ _ trivial hfuel2]
                simp [remA, remB, hdA, hdA2, mergeSpec]
      | stepRight lv =>
          cases lv with
          | some a =>
              have hta : tr a = true := hm
              simp only [remA, remB] at hfuel ⊢
              rcases hdB : B.drop j with - | ⟨b, bs2⟩
              · obtain ⟨hgb, -⟩ := drop_nil_facts fal B j hdB
                have hcv : compareValues tr (pureCmp c) (defaultExtract tr)
                    (some a) (some fal) results
                    = (.nextStep (results ++ [⟨a, .left⟩]) (.stepLeft none) :
                        CvOut α ε (DiffRec α)) := by
                  rw [cv_left_only tr _ _ _ _ _ hta (by simp [truthyO, hfal])]
                  simp [defaultExtract, hta]
                have hfuel2 : (remA A i (Mode.stepLeft none) : List α).length
                    + (remB B (j + 1) (Mode.stepLeft none)).length + 1 ≤ n := by
                  rw [hdB] at hfuel
                  simp [remA, remB] at *
                  omega
                simp only [run, pullPhase, callIter, fromList, hgb, hcv]
                rw [ih (.stepLeft none) i (j + 1) _ _ trivial hfuel2]
                simp [remA, remB, hdB, mergeSpec]
              · obtain ⟨hgb, hdB2, hbmem⟩ := drop_cons_facts fal B j b bs2 hdB
                have htb := hB b hbmem
                rcases lt_trichotomy (c a b) 0 with hc | hc | hc
                · have hcv : compareValues tr (pureCmp c) (defaultExtract tr)
                      (some a) (some b) results
                      = (.nextStep (results ++ [⟨a, .left⟩]) (.stepLeft (some b)) :
                          CvOut α ε (DiffRec α)) := by
                    rw [cv_both_default tr c a b results hta htb]
                    simp [hc, hc.ne]
                  have hfuel2 : (remA A i (Mode.stepLeft (some b)) : List α).length
                      + (remB B (j + 1) (Mode.stepLeft (some b))).length + 1 ≤ n := by
                    rw [hdB] at hfuel
                    simp [remA, remB, hdB2] at *
                    omega
                  simp only [run, pullPhase, callIter, fromList, hgb, hcv]
                  rw [ih (.stepLeft (some b)) i (j + 1) _ _ htb hfuel2]
                  simp [remA, remB, hdB, hdB2, mergeSpec, hc, hc.ne]
                · have hcv : compareValues tr (pureCmp c) (defaultExtract tr)
                      (some a) (some b) results
                      = (.nextStep (results ++ [⟨a, .both⟩]) .stepBoth :
                          CvOut α ε (DiffRec α)) := by
                    rw [cv_both_default tr c a b results hta htb]
                    simp [hc]
                  have hfuel2 : (remA A i (Mode.stepBoth : Mode α)).length
                      + (remB B (j + 1) (Mode.stepBoth : Mode α)).length + 1 ≤ n := by
                    rw [hdB] at hfuel
                    simp [remA, remB, hdB2] at *
                    omega
                  simp only [run, pullPhase, callIter, fromList, hgb, hcv]
                  rw [ih .stepBoth i (j + 1) _ _ trivial hfuel2]
                  simp [remA, remB, hdB, hdB2, mergeSpec, hc]
                · have hcv : compareValues tr (pureCmp c) (defaultExtract tr)
                      (some a) (some b) results
                      = (.nextStep (results ++ [⟨b, .right⟩]) (.stepRight (some a)) :
                          CvOut α ε (DiffRec α)) := by
                    rw [cv_both_default tr c a b results hta htb]
                    simp [hc.ne', not_lt.mpr hc.le]
                  have hfuel2 : (remA A i (Mode.stepRight (some a)) : List α).length
                      + (remB B (j + 1) (Mode.stepRight (some a))).length + 1 ≤ n := by
                    rw [hdB] at hfuel
                    simp [remA, remB, hdB2] at *
                    omega
                  simp only [run, pullPhase, callIter, fromList, hgb, hcv]
                  rw [ih (.stepRight (some a)) i (j + 1) _ _ hta hfuel2]
                  simp [remA, remB, hdB, hdB2, mergeSpec, hc.ne', not_lt.mpr hc.le]
          | none =>
              simp only [remA, remB] at hfuel ⊢
              rcases hdB : B.drop j with - | ⟨b, bs2⟩
              · obtain ⟨hgb, -⟩ := drop_nil_facts fal B j hdB
                have hcv : compareValues tr (pureCmp c) (defaultExtract tr)
                    none (some fal) results
                    = (.resolve : CvOut α ε (DiffRec α)) :=
                  cv_resolve _ _ _ _ _ _ (by simp [truthyO]) (by simp [truthyO, hfal])
                simp only [run, pullPhase, callIter, fromList, hgb, hcv]
                simp [hdB, mergeSpec]
              · obtain ⟨hgb, hdB2, hbmem⟩ := drop_cons_facts fal B j b bs2 hdB
                have htb := hB b hbmem
                have hcv : compareValues tr (pureCmp c) (defaultExtract tr)
                    none (some b) results
                    = (.nextStep (results ++ [⟨b, .right⟩]) (.stepRight none) :
                        CvOut α ε (DiffRec α)) := by
                  rw [cv_right_only tr _ _ _ _ _ (by simp [truthyO]) htb]
                  simp [defaultExtract, htb]
                have hfuel2 : (remA A i (Mode.stepRight none) : List α).length
                    + (remB B (j + 1) (Mode.stepRight none)).length + 1 ≤ n := by
                  rw [hdB] at hfuel
                  simp [remA, remB, hdB2] at *
                  omega
                simp only [run, pullPhase, callIter, fromList, hgb, hcv]
                rw [ih (.stepRight none) i (j + 1) _ _ trivial hfuel2]
                simp [remA, remB, hdB, hdB2, mergeSpec]

theorem addResult_ok_append (tr : α → Bool)
    (ext : Option α → Option α → Int → Except (JSError ε) ρ)
    (v1 v2 : Option α) (cr : Option Int) (results rs : List ρ)
    (hok : addResult tr ext v1 v2 cr results = .ok rs)
    (hcase : (∃ c, cr = some c) ∨ truthyO tr v1 = false ∨ truthyO tr v2 = false) :
    ∃ r, rs = results ++ [r] := by
  unfold addResult at hok
  cases hb1 : (cmpIsZero cr && truthyO tr v1 && truthyO tr v2) with
  | true =>
      rw [hb1, if_pos rfl] at hok
      cases hext : ext v1 v2 0 with
      | error e => rw [hext] at hok; simp [Except.map] at hok
      | ok r => rw [hext] at hok; simp [Except.map] at hok; exact ⟨r, hok.symm⟩
  | false =>
      rw [hb1] at hok
      simp only [Bool.false_eq_true, if_false] at hok
      cases hb2 : (cmpNeg cr || !truthyO tr v2) with
      | true =>
          rw [hb2, if_pos rfl] at hok
          cases hext : ext v1 none (-1) with
          | error e => rw [hext] at hok; simp [Except.map] at hok
          | ok r => rw [hext] at hok; simp [Except.map] at hok; exact ⟨r, hok.symm⟩
      | false =>
          rw [hb2] at hok
          simp only [Bool.false_eq_true, if_false] at hok
          cases hb3 : (cmpPos cr || !truthyO tr v1) with
          | true =>
              rw [hb3, if_pos rfl] at hok
              cases hext : ext none v2 1 with
              | error e => rw [hext] at hok; simp [Except.map] at hok
              | ok r => rw [hext] at hok; simp [Except.map] at hok; exact ⟨r, hok.symm⟩
          | false =>
              exfalso
              have hsplit2 : cmpNeg cr = false ∧ truthyO tr v2 = true := by
                rcases hx : cmpNeg cr <;> rcases hy : truthyO tr v2 <;>
                  simp [hx, hy] at hb2 ⊢
              have hsplit3 : cmpPos cr = false ∧ truthyO tr v1 = true := by
                rcases hx : cmpPos cr <;> rcases hy : truthyO tr v1 <;>
                  simp [hx, hy] at hb3 ⊢
              rcases hcase with ⟨cv, rfl⟩ | h | h
              · have hneg : ¬ (cv < 0) := by simpa [cmpNeg] using hsplit2.1
                have hpos : ¬ (0 < cv) := by simpa [cmpPos] using hsplit3.1
                have hz : cv = 0 := by omega
                rw [hz] at hb1
                simp [cmpIsZero, hsplit2.2, hsplit3.2] at hb1
              · rw [h] at hsplit3; simp at hsplit3
              · rw [h] at hsplit2; simp at hsplit2

theorem cv_next_append (tr : α → Bool) (cmp : α → α → Except (JSError ε) Int)
    (ext : Option α → Option α → Int → Except (JSError ε) ρ)
    (v1 v2 : Option α) (results rs : List ρ) (m : Mode α)
    (h : compareValues tr cmp ext v1 v2 results = .nextStep rs m) :
    ∃ r, rs = results ++ [r] := by
  cases v1 with
  | some a =>
      cases v2 with
      | some b =>
          cases hta : tr a with
          | true =>
              cases htb : tr b with
              | true =>
                  simp only [compareValues, hta, htb, Bool.and_self, ite_true] at h
                  cases hc : cmp a b with
                  | error e => simp [hc] at h
                  | ok c =>
                      simp only [hc] at h
                      cases hadd : addResult tr ext (some a) (some b) (some c) results with
                      | error e => simp [hadd] at h
                      | ok rs2 =>
                          simp only [hadd] at h
                          have hrs : rs2 = rs := by
                            rcases lt_trichotomy c 0 with hcc | hcc | hcc
                            · simp [hcc, hcc.ne] at h
                              exact h.1
                            · simp [hcc] at h
                              exact h.1
                            · simp [hcc.ne', not_lt.mpr hcc.le] at h
                              exact h.1
                          rw [hrs] at hadd
                          exact addResult_ok_append tr ext _ _ _ _ _ hadd (Or.inl ⟨c, rfl⟩)
              | false =>
                  simp only [compareValues, hta, htb, Bool.and_false, Bool.false_eq_true,
                    ite_false, ite_true] at h
                  cases hadd : addResult tr ext (some a) (some b) none results with
                  | error e => simp [hadd] at h
                  | ok rs2 =>
                      simp only [hadd] at h
                      simp at h
                      rw [h.1] at hadd
                      exact addResult_ok_append tr ext _ _ _ _ _ hadd
                        (Or.inr (Or.inr (by simp [truthyO, htb])))
          | false =>
              cases htb : tr b with
              | true =>
                  simp only [compareValues, hta, htb, Bool.false_and, Bool.false_eq_true,
                    ite_false, ite_true] at h
                  cases hadd : addResult tr ext (some a) (some b) none results with
                  | error e => simp [hadd] at h
                  | ok rs2 =>
                      simp only [hadd] at h
                      simp at h
                      rw [h.1] at hadd
                      exact addResult_ok_append tr ext _ _ _ _ _ hadd
                        (Or.inr (Or.inl (by simp [truthyO, hta])))
              | false => simp [compareValues, hta, htb] at h
      | none =>
          cases hta : tr a with
          | true =>
              simp only [compareValues, hta, ite_true] at h
              cases hadd : addResult tr ext (some a) none none results with
              | error e => simp [hadd] at h
              | ok rs2 =>
                  simp only [hadd] at h
                  simp at h
                  rw [h.1] at hadd
                  exact addResult_ok_append tr ext _ _ _ _ _ hadd
                    (Or.inr (Or.inr (by simp [truthyO])))
          | false => simp [compareValues, hta] at h
  | none =>
      cases v2 with
      | some b =>
          cases htb : tr b with
          | true =>
              simp only [compareValues, htb, ite_true] at h
              cases hadd : addResult tr ext none (some b) none results with
              | error e => simp [hadd] at h
              | ok rs2 =>
                  simp only [hadd] at h
                  simp at h
                  rw [h.1] at hadd
                  exact addResult_ok_append tr ext _ _ _ _ _ hadd
                    (Or.inr (Or.inl (by simp [truthyO])))
          | false => simp [compareValues, htb] at h
      | none => simp [compareValues] at h

theorem run_notes_chain (tr : α → Bool) (cmp : α → α → Except (JSError ε) Int)
    (ext : Option α → Option α → Int → Except (JSError ε) ρ)
    (it1 it2 : Iter α ε) :
    ∀ (fuel : ℕ) (m : Mode α) (i j : ℕ) (results : List ρ) (notes : List (List ρ)),
      ∃ ns,
        (run tr cmp ext it1 it2 fuel m i j results notes).notes = notes ++ ns ∧
        chainFrom results ns ∧
        (run tr cmp ext it1 it2 fuel m i j results notes).results = lastSnap results ns ∧
        (∀ l, (run tr cmp ext it1 it2 fuel m i j results notes).settled = some (.ok l) →
          l = lastSnap results ns) := by
  intro fuel
  induction fuel with
  | zero =>
      intro m i j results notes
      exact ⟨[], by simp [run], trivial, by simp [run, lastSnap], by simp [run]⟩
  | succ n ih =>
      intro m i j results notes
      rcases hp : pullPhase it1 it2 m i j with ⟨res, i2, j2⟩
      cases res with
      | error e =>
          refine ⟨[], by simp [run, hp], trivial, by simp [run, hp, lastSnap], ?_⟩
          intro l hl
          simp [run, hp] at hl
      | ok vp =>
          rcases vp with ⟨v1, v2⟩
          cases hcv : compareValues tr cmp ext v1 v2 results with
          | reject e =>
              refine ⟨[], by simp [run, hp, hcv], trivial, by simp [run, hp, hcv, lastSnap], ?_⟩
              intro l hl
              simp [run, hp, hcv] at hl
          | resolve =>
              refine ⟨[], by simp [run, hp, hcv], trivial, by simp [run, hp, hcv, lastSnap], ?_⟩
              intro l hl
              simp [run, hp, hcv] at hl
              simp [lastSnap, hl]
          | nextStep rs m2 =>
              obtain ⟨r, hr⟩ := cv_next_append tr cmp ext v1 v2 results rs m2 hcv
              obtain ⟨ns2, hnotes, hchain, hres, hset⟩ := ih m2 i2 j2 rs (notes ++ [rs])
              refine ⟨rs :: ns2, ?_, ⟨⟨r, hr⟩, hchain⟩, ?_, ?_⟩
              · simp only [run, hp, hcv]
                rw [hnotes]
                simp
              · simp only [run, hp, hcv]
                rw [hres]
                rfl
              · intro l hl
                simp only [run, hp, hcv] at hl
                exact hset l hl

theorem optProj_eq_some_iff (tr : α → Bool) (v : Option α) (a : α) :
    optProj tr v = some a ↔ (v = some a ∧ tr a = true) := by
  cases v with
  | none => simp [optProj]
  | some x =>
      by_cases hx : tr x = true
      · simp only [optProj, hx, ite_true, Option.some_inj]
        constructor
        · rintro rfl; exact ⟨rfl, hx⟩
        · rintro ⟨hxa, -⟩; exact hxa
      · have hx2 : tr x = false := by
          cases hxx : tr x
          · rfl
          · exact absurd hxx hx
        simp only [optProj, hx2, Bool.false_eq_true, ite_false]
        constructor
        · intro hh; cases hh
        · rintro ⟨hxa, hta⟩
          cases hxa
          rw [hta] at hx2
          cases hx2

theorem optProj_eq_none_iff (tr : α → Bool) (v : Option α) :
    optProj tr v = none ↔ truthyO tr v = false := by
  cases v with
  | none => simp [optProj, truthyO]
  | some x =>
      by_cases hx : tr x = true
      · simp [optProj, truthyO, hx]
      · have hx2 : tr x = false := by
          cases hxx : tr x
          · rfl
          · exact absurd hxx hx
        simp [optProj, truthyO, hx2]

theorem cv_congr (tr : α → Bool) (cmp : α → α → Except (JSError ε) Int)
    (ext : Option α → Option α → Int → Except (JSError ε) ρ)
    (v1 v1' v2 v2' : Option α) (results : List ρ)
    (h1 : optProj tr v1 = optProj tr v1') (h2 : optProj tr v2 = optProj tr v2') :
    compareValues tr cmp ext v1 v2 results = compareValues tr cmp ext v1' v2' results := by
  cases hp1 : optProj tr v1 with
  | some a =>
      obtain ⟨rfl, hta⟩ := (optProj_eq_some_iff tr v1 a).mp hp1
      obtain ⟨rfl, -⟩ := (optProj_eq_some_iff tr v1' a).mp (h1 ▸ hp1)
      cases hp2 : optProj tr v2 with
      | some b =>
          obtain ⟨rfl, -⟩ := (optProj_eq_some_iff tr v2 b).mp hp2
          obtain ⟨rfl, -⟩ := (optProj_eq_some_iff tr v2' b).mp (h2 ▸ hp2)
          rfl
      | none =>
          have hf2 : truthyO tr v2 = false := (optProj_eq_none_iff tr v2).mp hp2
          have hf2' : truthyO tr v2' = false := (optProj_eq_none_iff tr v2').mp (h2 ▸ hp2)
          rw [cv_left_only tr cmp ext a v2 results hta hf2,
            cv_left_only tr cmp ext a v2' results hta hf2']
  | none =>
      have hf1 : truthyO tr v1 = false := (optProj_eq_none_iff tr v1).mp hp1
      have hf1' : truthyO tr v1' = false := (optProj_eq_none_iff tr v1').mp (h1 ▸ hp1)
      cases hp2 : optProj tr v2 with
      | some b =>
          obtain ⟨rfl, htb⟩ := (optProj_eq_some_iff tr v2 b).mp hp2
          obtain ⟨rfl, -⟩ := (optProj_eq_some_iff tr v2' b).mp (h2 ▸ hp2)
          rw [cv_right_only tr cmp ext v1 b results hf1 htb,
            cv_right_only tr cmp ext v1' b results hf1' htb]
      | none =>
          have hf2 : truthyO tr v2 = false := (optProj_eq_none_iff tr v2).mp hp2
          have hf2' : truthyO tr v2' = false := (optProj_eq_none_iff tr v2').mp (h2 ▸ hp2)
          rw [cv_resolve tr cmp ext v1 v2 results hf1 hf2,
            cv_resolve tr cmp ext v1' v2' results hf1' hf2']

theorem run_truthyProj_congr (tr : α → Bool) (cmp : α → α → Except (JSError ε) Int)
    (ext : Option α → Option α → Int → Except (JSError ε) ρ)
    (p1 p1' p2 p2' : ℕ → Except (JSError ε) α)
    (h1 : ∀ n, truthyProj tr p1 n = truthyProj tr p1' n)
    (h2 : ∀ n, truthyProj tr p2 n = truthyProj tr p2' n) :
    ∀ (fuel : ℕ) (m : Mode α) (i j : ℕ) (results : List ρ) (notes : List (List ρ)),
      run tr cmp ext (.fnIter p1) (.fnIter p2) fuel m i j results notes
        = run tr cmp ext (.fnIter p1') (.fnIter p2') fuel m i j results notes := by
  have hrel : ∀ (p q : ℕ → Except (JSError ε) α),
      (∀ n, truthyProj tr p n = truthyProj tr q n) → ∀ n,
      (∀ e, p n = .error e → q n = .error e) ∧
      (∀ v, p n = .ok v → ∃ w, q n = .ok w ∧ optProj tr (some v) = optProj tr (some w)) := by
    intro p q hpq n
    have h := hpq n
    unfold truthyProj at h
    constructor
    · intro e he
      rw [he] at h
      cases hq : q n with
      | error e2 => rw [hq] at h; simp [Except.map] at h; rw [h]
      | ok w => rw [hq] at h; simp [Except.map] at h
    · intro v hv
      rw [hv] at h
      cases hq : q n with
      | error e2 => rw [hq] at h; simp [Except.map] at h
      | ok w =>
          rw [hq] at h
          simp [Except.map] at h
          exact ⟨w, rfl, by simpa [optProj] using h⟩
  intro fuel
  induction fuel with
  | zero => intro m i j results notes; simp [run]
  | succ n ih =>
      intro m i j results notes
      cases m with
      | stepBoth =>
          cases e1 : p1 i with
          | error e =>
              have e1' := ((hrel p1 p1' h1 i).1 e e1)
              simp [run, pullPhase, callIter, e1, e1']
          | ok v =>
              obtain ⟨v', e1', hvv⟩ := (hrel p1 p1' h1 i).2 v e1
              cases e2 : p2 j with
              | error e =>
                  have e2' := ((hrel p2 p2' h2 j).1 e e2)
                  simp [run, pullPhase, callIter, e1, e1', e2, e2']
              | ok w =>
                  obtain ⟨w', e2', hww⟩ := (hrel p2 p2' h2 j).2 w e2
                  have hcv := cv_congr tr cmp ext (some v) (some v') (some w) (some w')
                    results hvv hww
                  simp only [run, pullPhase, callIter, e1, e1', e2, e2']
                  rw [hcv]
                  cases compareValues tr cmp ext (some v') (some w') results with
                  | reject e => rfl
                  | resolve => rfl
                  | nextStep rs m2 => exact ih m2 (i + 1) (j + 1) rs (notes ++ [rs])
      | stepLeft rv =>
          cases e1 : p1 i with
          | error e =>
              have e1' := ((hrel p1 p1' h1 i).1 e e1)
              simp [run, pullPhase, callIter, e1, e1']
          | ok v =>
              obtain ⟨v', e1', hvv⟩ := (hrel p1 p1' h1 i).2 v e1
              have hcv := cv_congr tr cmp ext (some v) (some v') rv rv results hvv rfl
              simp only [run, pullPhase, callIter, e1, e1']
              rw [hcv]
              cases compareValues tr cmp ext (some v') rv results with
              | reject e => rfl
              | resolve => rfl
              | nextStep rs m2 => exact ih m2 (i + 1) j rs (notes ++ [rs])
      | stepRight lv =>
          cases e2 : p2 j with
          | error e =>
              have e2' := ((hrel p2 p2' h2 j).1 e e2)
              simp [run, pullPhase, callIter, e2, e2']
          | ok w =>
              obtain ⟨w', e2', hww⟩ := (hrel p2 p2' h2 j).2 w e2
              have hcv := cv_congr tr cmp ext lv lv (some w) (some w') results rfl hww
              simp only [run, pullPhase, callIter, e2, e2']
              rw [hcv]
              cases compareValues tr cmp ext lv (some w') results with
              | reject e => rfl
              | resolve => rfl
              | nextStep rs m2 => exact ih m2 i (j + 1) rs (notes ++ [rs])

/-! ## Claim theorems -/

/-- C1: for sequences that are non-decreasing under the configured
comparator and consist of truthy elements, `compare` (with the default
provenance-tagging extractor) resolves with exactly the three-way
sorted-merge comparison of the two sequences: `both` records for the
ordered intersection, `left` records for A-only elements in A's order,
`right` records for B-only elements in B's order, interleaved in merge
order. -/
theorem compare_sorted_merge (tr : α → Bool) (fal : α) (c : α → α → Int)
    (A B : List α) (fuel : ℕ) (hfal : tr fal = false)
    (hA : ∀ a ∈ A, tr a = true) (hB : ∀ b ∈ B, tr b = true)
    (hsortA : A.Chain' (fun x y => c x y ≤ 0))
    (hsortB : B.Chain' (fun x y => c x y ≤ 0))
    (hfuel : A.length + B.length + 1 ≤ fuel) :
    (compare tr (pureCmp c) (defaultExtract tr) initState
        (Iter.fnIter (fromList fal A)) (Iter.fnIter (fromList fal B)) fuel :
      EngineState α ε (DiffRec α) × CompareResult ε (DiffRec α)).2.settled
      = some (.ok (mergeSpec c A B)) := by
  have h := @run_merge α ε tr fal c A B hfal hA hB fuel .stepBoth 0 0 [] [] trivial
    (by simp only [remA, remB, List.drop_zero]; omega)
  simp only [remA, remB, List.drop_zero, List.nil_append] at h
  simp only [compare, initState, validShape, Bool.false_eq_true, if_false,
    Bool.true_eq_false]
  simpa using h

theorem compare_sorted_merge_witness :
    (∀ a ∈ ([1, 3, 5, 7] : List ℤ), intTruthy a = true) ∧
    ([1, 3, 5, 7] : List ℤ).Chain' (fun x y => intCmp x y ≤ 0) ∧
    ([3, 4, 5, 8] : List ℤ).Chain' (fun x y => intCmp x y ≤ 0) ∧
    (compare intTruthy (pureCmp intCmp) (defaultExtract intTruthy) initState
        (Iter.fnIter (fromList 0 [1, 3, 5, 7]) : Iter ℤ String)
        (Iter.fnIter (fromList 0 [3, 4, 5, 8])) 12).2.settled
      = some (.ok [⟨1, .left⟩, ⟨3, .both⟩, ⟨4, .right⟩,
          ⟨5, .both⟩, ⟨7, .left⟩, ⟨8, .right⟩]) := by
  have hcA : ([1, 3, 5, 7] : List ℤ).Chain' (fun x y => intCmp x y ≤ 0) := by
    norm_num [List.chain'_cons, intCmp]
  have hcB : ([3, 4, 5, 8] : List ℤ).Chain' (fun x y => intCmp x y ≤ 0) := by
    norm_num [List.chain'_cons, intCmp]
  refine ⟨by decide, hcA, hcB, ?_⟩
  exact (compare_sorted_merge intTruthy 0 intCmp [1, 3, 5, 7] [3, 4, 5, 8] 12 rfl
      (by decide) (by decide) hcA hcB (by decide)).trans
    (by norm_num [mergeSpec, intCmp])

/-- C5: the engine treats a falsy pull exactly as exhaustion of that source
and makes no distinction between different falsy values and absence: two
pairs of sources whose pull streams agree after collapsing every falsy value
to "no value" produce identical runs — same records, same notifications,
same pull counts, same settlement. -/
theorem compare_falsy_is_exhaustion (tr : α → Bool)
    (cmp : α → α → Except (JSError ε) Int)
    (ext : Option α → Option α → Int → Except (JSError ε) ρ)
    (s : EngineState α ε ρ) (p1 p1' p2 p2' : ℕ → Except (JSError ε) α) (fuel : ℕ)
    (h1 : ∀ n, truthyProj tr p1 n = truthyProj tr p1' n)
    (h2 : ∀ n, truthyProj tr p2 n = truthyProj tr p2' n) :
    (compare tr cmp ext s (.fnIter p1) (.fnIter p2) fuel).2
      = (compare tr cmp ext s (.fnIter p1') (.fnIter p2') fuel).2 ∧
    (compare tr cmp ext s (.fnIter p1) (.fnIter p2) fuel).1.results
      = (compare tr cmp ext s (.fnIter p1') (.fnIter p2') fuel).1.results := by
  have hrun := run_truthyProj_congr tr cmp ext p1 p1' p2 p2' h1 h2 fuel .stepBoth 0 0 [] []
  cases hd : s.deferredSet with
  | true => simp [compare, hd]
  | false => simp [compare, hd, validShape, hrun]

theorem compare_falsy_is_exhaustion_witness :
    (compare jsTruthy (pureCmp defaultCmp) (defaultExtract jsTruthy) initState
        (Iter.fnIter (fun k =>
          (.ok (if k = 0 then JVal.num 1 else JVal.num 0) :
            Except (JSError String) JVal)))
        (Iter.fnIter (fun _ => .ok (JVal.num 0))) 9).2
      = (compare jsTruthy (pureCmp defaultCmp) (defaultExtract jsTruthy) initState
        (Iter.fnIter (fun k => .ok (if k = 0 then JVal.num 1 else JVal.undef)))
        (Iter.fnIter (fun _ => .ok JVal.undef)) 9).2 := by
  have h1 : ∀ n, truthyProj jsTruthy
      (fun k => (.ok (if k = 0 then JVal.num 1 else JVal.num 0) :
        Except (JSError String) JVal)) n
      = truthyProj jsTruthy
        (fun k => .ok (if k = 0 then JVal.num 1 else JVal.undef)) n := by
    intro n
    cases n with
    | zero => rfl
    | succ k =>
        simp only [truthyProj, Nat.succ_ne_zero, if_false]
        rfl
  have h2 : ∀ n, truthyProj jsTruthy
      (fun _ => (.ok (JVal.num 0) : Except (JSError String) JVal)) n
      = truthyProj jsTruthy (fun _ => .ok JVal.undef) n := by
    intro n
    simp only [truthyProj]
    rfl
  exact (compare_falsy_is_exhaustion jsTruthy (pureCmp defaultCmp)
    (defaultExtract jsTruthy) initState _ _ _ _ 9 h1 h2).1

/-- C6: every record the engine emits is appended to the accumulator and
triggers exactly one progress notification carrying the full accumulated
list so far; consecutive notifications each extend the previous one by
exactly one record (monotonically growing, never reordered or truncated),
and the final resolution carries the last notified list. -/
theorem compare_progress_monotone (tr : α → Bool)
    (cmp : α → α → Except (JSError ε) Int)
    (ext : Option α → Option α → Int → Except (JSError ε) ρ)
    (s : EngineState α ε ρ) (it1 it2 : Iter α ε) (fuel : ℕ) :
    chainFrom [] (compare tr cmp ext s it1 it2 fuel).2.notes ∧
    (∀ l, (compare tr cmp ext s it1 it2 fuel).2.settled = some (.ok l) →
      l = lastSnap [] (compare tr cmp ext s it1 it2 fuel).2.notes) := by
  cases hd : s.deferredSet with
  | true =>
      constructor
      · simp [compare, hd, chainFrom]
      · intro l hl
        simp [compare, hd] at hl
  | false =>
      cases hv1 : validShape it1 with
      | false =>
          constructor
          · simp [compare, hd, hv1, chainFrom]
          · intro l hl
            simp [compare, hd, hv1] at hl
      | true =>
          cases hv2 : validShape it2 with
          | false =>
              constructor
              · simp [compare, hd, hv1, hv2, chainFrom]
              · intro l hl
                simp [compare, hd, hv1, hv2] at hl
          | true =>
              obtain ⟨ns, hnotes, hchain, hres, hset⟩ :=
                run_notes_chain tr cmp ext it1 it2 fuel .stepBoth 0 0 [] []
              have hnotes2 :
                  (run tr cmp ext it1 it2 fuel .stepBoth 0 0 [] []).notes = ns := by
                simpa using hnotes
              constructor
              · simp only [compare, hd, Bool.false_eq_true, if_false, hv1, hv2,
                  Bool.true_eq_false]
                simpa [hnotes2] using hchain
              · intro l hl
                simp only [compare, hd, Bool.false_eq_true, if_false, hv1, hv2,
                  Bool.true_eq_false] at hl ⊢
                simp only [hnotes2]
                exact hset l (by simpa using hl)

theorem compare_progress_monotone_witness :
    chainFrom [] (compare intTruthy (pureCmp intCmp) (defaultExtract intTruthy)
        initState (Iter.fnIter (fromList 0 [5]) : Iter ℤ String)
        (Iter.fnIter (fromList 0 [])) 9).2.notes ∧
    [(⟨5, .left⟩ : DiffRec ℤ)]
      = lastSnap [] (compare intTruthy (pureCmp intCmp) (defaultExtract intTruthy)
          initState (Iter.fnIter (fromList 0 [5]) : Iter ℤ String)
          (Iter.fnIter (fromList 0 [])) 9).2.notes :=
  ⟨(compare_progress_monotone intTruthy (pureCmp intCmp) (defaultExtract intTruthy)
      initState (Iter.fnIter (fromList 0 [5])) (Iter.fnIter (fromList 0 [])) 9).1,
   (compare_progress_monotone intTruthy (pureCmp intCmp) (defaultExtract intTruthy)
      initState (Iter.fnIter (fromList 0 [5])) (Iter.fnIter (fromList 0 [])) 9).2
     [⟨5, .left⟩] rfl⟩

/-- C2: invoking `compare` while a comparison is already pending (the
deferred is set) fails synchronously with the `Already comparing` error,
returns the instance state completely unchanged, performs no pull on either
source, emits no notification, and never settles a promise — so the first
invocation's eventual result is unaffected. -/
theorem compare_reentrant_throws (tr : α → Bool)
    (cmp : α → α → Except (JSError ε) Int)
    (ext : Option α → Option α → Int → Except (JSError ε) ρ)
    (s : EngineState α ε ρ) (it1 it2 : Iter α ε) (fuel : ℕ)
    (h : s.deferredSet = true) :
    compare tr cmp ext s it1 it2 fuel
      = (s, ⟨some .alreadyComparing, none, [], 0, 0⟩) := by
  simp [compare, h]

theorem compare_reentrant_throws_witness :
    (⟨some Iter.badIter, none, [⟨3, Side.left⟩], true⟩ :
        EngineState ℤ String (DiffRec ℤ)).deferredSet = true ∧
    compare intTruthy (pureCmp intCmp) (defaultExtract intTruthy)
        (⟨some Iter.badIter, none, [⟨3, Side.left⟩], true⟩ :
          EngineState ℤ String (DiffRec ℤ))
        (Iter.fnIter (fromList 0 [1])) (Iter.fnIter (fromList 0 [2])) 9
      = (⟨some Iter.badIter, none, [⟨3, Side.left⟩], true⟩,
         ⟨some .alreadyComparing, none, [], 0, 0⟩) :=
  ⟨rfl, compare_reentrant_throws _ _ _ _ _ _ _ rfl⟩

/-- C3: failures are fail-fast.  A rejected pull settles the run immediately
with that same error, leaving the notifications already emitted untouched
and issuing no pulls beyond the failing step; a `_compareValues` rejection
does the same; and a throwing comparator, or a throwing extractor after a
successful comparison, makes `_compareValues` reject with exactly that
error. -/
theorem run_fail_fast (tr : α → Bool) (cmp : α → α → Except (JSError ε) Int)
    (ext : Option α → Option α → Int → Except (JSError ε) ρ)
    (it1 it2 : Iter α ε) (fuel i j : ℕ) (m : Mode α)
    (results : List ρ) (notes : List (List ρ)) :
    (∀ e i2 j2, pullPhase it1 it2 m i j = (.error e, i2, j2) →
        run tr cmp ext it1 it2 (fuel + 1) m i j results notes
          = ⟨notes, i2, j2, results, some (.error e)⟩) ∧
    (∀ v1 v2 i2 j2 e, pullPhase it1 it2 m i j = (.ok (v1, v2), i2, j2) →
        compareValues tr cmp ext v1 v2 results = .reject e →
        run tr cmp ext it1 it2 (fuel + 1) m i j results notes
          = ⟨notes, i2, j2, results, some (.error e)⟩) ∧
    (∀ a b e, tr a = true → tr b = true → cmp a b = .error e →
        compareValues tr cmp ext (some a) (some b) results = .reject e) ∧
    (∀ a b c e, tr a = true → tr b = true → cmp a b = .ok c →
        addResult tr ext (some a) (some b) (some c) results = .error e →
        compareValues tr cmp ext (some a) (some b) results = .reject e) := by
  refine ⟨?_, ?_, ?_, ?_⟩
  · intro e i2 j2 h
    simp [run, h]
  · intro v1 v2 i2 j2 e h hcv
    simp [run, h, hcv]
  · intro a b e h1 h2 hc
    simp [compareValues, h1, h2, hc]
  · intro a b c e h1 h2 hc hadd
    simp [compareValues, h1, h2, hc, hadd]

theorem run_fail_fast_witness :
    (run intTruthy (pureCmp intCmp) (defaultExtract intTruthy)
        (Iter.fnIter (fun _ => .error (.upstream "boom")) : Iter ℤ String)
        (Iter.fnIter (fromList 0 [3])) 5 .stepBoth 0 0 [] []
      = ⟨[], 1, 1, [], some (.error (.upstream "boom"))⟩) ∧
    (run intTruthy (fun _ _ => .error (.upstream "cmpboom")) (defaultExtract intTruthy)
        (Iter.fnIter (fromList 0 [1]) : Iter ℤ String)
        (Iter.fnIter (fromList 0 [3])) 5 .stepBoth 0 0 [] []
      = ⟨[], 1, 1, [], some (.error (.upstream "cmpboom"))⟩) ∧
    (compareValues intTruthy (fun _ _ => .error (.upstream "cmpboom"))
        (defaultExtract intTruthy) (some 1) (some 3) ([] : List (DiffRec ℤ))
      = .reject (.upstream "cmpboom")) ∧
    (compareValues intTruthy (pureCmp intCmp)
        (fun _ _ _ => (.error (.upstream "extboom") : Except (JSError String) (DiffRec ℤ)))
        (some 1) (some 3) [] = .reject (.upstream "extboom")) :=
  ⟨(run_fail_fast intTruthy (pureCmp intCmp) (defaultExtract intTruthy)
      (Iter.fnIter (fun _ => .error (.upstream "boom")))
      (Iter.fnIter (fromList 0 [3])) 4 0 0 .stepBoth [] []).1 _ _ _ rfl,
   (run_fail_fast intTruthy (fun _ _ => .error (.upstream "cmpboom"))
      (defaultExtract intTruthy) (Iter.fnIter (fromList 0 [1]))
      (Iter.fnIter (fromList 0 [3])) 4 0 0 .stepBoth [] []).2.1
      (some 1) (some 3) 1 1 _ rfl rfl,
   (run_fail_fast intTruthy (fun _ _ => .error (.upstream "cmpboom"))
      (defaultExtract intTruthy) (Iter.fnIter (fromList 0 [1]))
      (Iter.fnIter (fromList 0 [3])) 4 0 0 .stepBoth [] []).2.2.1
      1 3 _ rfl rfl rfl,
   (run_fail_fast intTruthy (pureCmp intCmp)
      (fun _ _ _ => (.error (.upstream "extboom") : Except (JSError String) (DiffRec ℤ)))
      (Iter.fnIter (fromList 0 [1]))
      (Iter.fnIter (fromList 0 [3])) 4 0 0 .stepBoth [] []).2.2.2
      1 3 (-1) _ rfl rfl rfl rfl⟩

/-- C4 as stated is false: when the first source is well-shaped and the
second is not, `compare` does throw the invalid-shape error, but the first
source has already received one pull, so the failure does not happen before
any pull occurs on either source. -/
theorem compare_invalid_second_still_pulls :
    ((compare intTruthy (pureCmp intCmp) (defaultExtract intTruthy) initState
        (Iter.fnIter (fromList 0 [1, 2, 3]) : Iter ℤ String) Iter.badIter 5).2.thrown
      = some JSError.notInvokable) ∧
    ((compare intTruthy (pureCmp intCmp) (defaultExtract intTruthy) initState
        (Iter.fnIter (fromList 0 [1, 2, 3]) : Iter ℤ String) Iter.badIter 5).2.pulls1
      = 1) := ⟨rfl, rfl⟩

/-- C4 (amended): an invalid first source makes `compare` throw the
invalid-shape error before any pull on either source; a valid first source
with an invalid second one makes it throw the same error after exactly one
pull on the first source and none on the second. -/
theorem compare_invalid_shape_amended (tr : α → Bool)
    (cmp : α → α → Except (JSError ε) Int)
    (ext : Option α → Option α → Int → Except (JSError ε) ρ)
    (it1 it2 : Iter α ε) (fuel : ℕ) :
    (validShape it1 = false →
      (compare tr cmp ext initState it1 it2 fuel).2
        = ⟨some .notInvokable, none, [], 0, 0⟩) ∧
    (validShape it1 = true → validShape it2 = false →
      (compare tr cmp ext initState it1 it2 fuel).2
        = ⟨some .notInvokable, none, [], 1, 0⟩) := by
  constructor
  · intro h1
    simp [compare, initState, h1]
  · intro h1 h2
    simp [compare, initState, h1, h2]

theorem compare_invalid_shape_amended_witness :
    ((validShape (Iter.badIter : Iter ℤ String) = false) ∧
      (compare intTruthy (pureCmp intCmp) (defaultExtract intTruthy) initState
          (Iter.badIter : Iter ℤ String) (Iter.fnIter (fromList 0 [1])) 5).2
        = ⟨some .notInvokable, none, [], 0, 0⟩) ∧
    ((validShape (Iter.fnIter (fromList 0 [1]) : Iter ℤ String) = true) ∧
      (compare intTruthy (pureCmp intCmp) (defaultExtract intTruthy) initState
          (Iter.fnIter (fromList 0 [1]) : Iter ℤ String) Iter.badIter 5).2
        = ⟨some .notInvokable, none, [], 1, 0⟩) :=
  ⟨⟨rfl, (compare_invalid_shape_amended intTruthy (pureCmp intCmp)
      (defaultExtract intTruthy) Iter.badIter (Iter.fnIter (fromList 0 [1])) 5).1 rfl⟩,
   ⟨rfl, (compare_invalid_shape_amended intTruthy (pureCmp intCmp)
      (defaultExtract intTruthy) (Iter.fnIter (fromList 0 [1])) Iter.badIter 5).2 rfl rfl⟩⟩

/-- C7: when the very first pull of each source already yields a falsy
value, `compare` resolves with the empty accumulator, emits no progress
notification, and has issued exactly one pull per source. -/
theorem compare_both_empty (tr : α → Bool)
    (cmp : α → α → Except (JSError ε) Int)
    (ext : Option α → Option α → Int → Except (JSError ε) ρ)
    (p1 p2 : ℕ → Except (JSError ε) α) (fuel : ℕ) (v1 v2 : α)
    (h1 : p1 0 = .ok v1) (h2 : p2 0 = .ok v2)
    (t1 : tr v1 = false) (t2 : tr v2 = false) :
    (compare tr cmp ext initState (.fnIter p1) (.fnIter p2) (fuel + 1)).2
      = ⟨none, some (.ok []), [], 1, 1⟩ := by
  simp [compare, initState, validShape, run, pullPhase, callIter, h1, h2,
    compareValues, t1, t2]

theorem compare_both_empty_witness :
    ((fromList 0 ([] : List ℤ) : ℕ → Except (JSError String) ℤ) 0 = .ok 0) ∧
    intTruthy 0 = false ∧
    (compare intTruthy (pureCmp intCmp) (defaultExtract intTruthy) initState
        (Iter.fnIter (fromList 0 ([] : List ℤ)) : Iter ℤ String)
        (Iter.fnIter (fromList 0 [])) 9).2
      = ⟨none, some (.ok []), [], 1, 1⟩ :=
  ⟨rfl, rfl,
   compare_both_empty intTruthy (pureCmp intCmp) (defaultExtract intTruthy)
     (fromList 0 []) (fromList 0 []) 8 0 0 rfl rfl rfl rfl⟩

/-- C8 as stated is false: at `NaN` the default comparator is not
reflexive — `NaN === NaN` and `NaN < NaN` are both false, so
`defaultCmp` returns 1 (GREATER), not 0 (EQUAL). -/
theorem defaultCmp_nan_counterexample :
    ¬ (defaultCmp JVal.nan JVal.nan = 0) := by decide

/-- C8 (amended): the default comparator is reflexive at every value other
than `NaN`: `defaultCmp x x = 0` whenever `x ≠ NaN` (at `NaN` it returns
1). -/
theorem defaultCmp_reflexive_of_ne_nan (x : JVal) (h : x ≠ JVal.nan) :
    defaultCmp x x = 0 := by
  cases x with
  | num q => simp [defaultCmp, jsStrictEq]
  | nan => exact absurd rfl h
  | boolv b => simp [defaultCmp, jsStrictEq]
  | nullv => simp [defaultCmp, jsStrictEq]
  | undef => simp [defaultCmp, jsStrictEq]

theorem defaultCmp_reflexive_witness :
    (JVal.num 5 ≠ JVal.nan) ∧ defaultCmp (JVal.num 5) (JVal.num 5) = 0 :=
  ⟨by decide, defaultCmp_reflexive_of_ne_nan (JVal.num 5) (by decide)⟩

/-- C9: on an EQUAL comparison of two truthy values, `_addResult` with the
default extractor appends the record `⟨v1, both⟩`: it carries only the left
source's value, and the right-side equal value appears nowhere in it. -/
theorem addResult_equal_carries_left (tr : α → Bool) (v1 v2 : α)
    (results : List (DiffRec α)) (h1 : tr v1 = true) (h2 : tr v2 = true) :
    addResult tr (defaultExtract tr) (some v1) (some v2) (some 0) results
      = (.ok (results ++ [⟨v1, .both⟩]) : Except (JSError ε) (List (DiffRec α))) := by
  simp [addResult, defaultExtract, truthyO, cmpIsZero, h1, h2, Except.map]

theorem addResult_equal_carries_left_witness :
    intTruthy 4 = true ∧
    addResult intTruthy (defaultExtract intTruthy) (some 4) (some 4) (some 0) []
      = (.ok [⟨4, .both⟩] : Except (JSError String) (List (DiffRec ℤ))) :=
  ⟨rfl, addResult_equal_carries_left intTruthy 4 4 [] rfl rfl⟩

/-- C10: an invalid source shape makes the first `compare` call throw the
invalid-shape error synchronously while the returned promise never settles
and no record is emitted; the deferred has nevertheless been set, so every
subsequent `compare` call on the instance throws `Already comparing` and
leaves the state unchanged, even though no merge ever ran. -/
theorem compare_invalid_shape_poisons (tr : α → Bool)
    (cmp : α → α → Except (JSError ε) Int)
    (ext : Option α → Option α → Int → Except (JSError ε) ρ)
    (it1 it2 : Iter α ε) (fuel : ℕ)
    (h : validShape it1 = false ∨ validShape it2 = false) :
    ((compare tr cmp ext initState it1 it2 fuel).2.thrown = some .notInvokable) ∧
    ((compare tr cmp ext initState it1 it2 fuel).2.settled = none) ∧
    ((compare tr cmp ext initState it1 it2 fuel).2.notes = []) ∧
    ((compare tr cmp ext initState it1 it2 fuel).1.deferredSet = true) ∧
    (∀ (it3 it4 : Iter α ε) (fuel2 : ℕ),
      compare tr cmp ext (compare tr cmp ext initState it1 it2 fuel).1 it3 it4 fuel2
        = ((compare tr cmp ext initState it1 it2 fuel).1,
           ⟨some .alreadyComparing, none, [], 0, 0⟩)) := by
  by_cases h1 : validShape it1 = false
  · refine ⟨?_, ?_, ?_, ?_, ?_⟩ <;>
      simp [compare, initState, h1]
  · have h2 : validShape it2 = false := h.resolve_left h1
    refine ⟨?_, ?_, ?_, ?_, ?_⟩ <;>
      simp [compare, initState, h1, h2]

theorem compare_invalid_shape_poisons_witness :
    (validShape (Iter.badIter : Iter ℤ String) = false ∨
      validShape (Iter.fnIter (fromList 0 [1]) : Iter ℤ String) = false) ∧
    ((compare intTruthy (pureCmp intCmp) (defaultExtract intTruthy) initState
        (Iter.badIter : Iter ℤ String) (Iter.fnIter (fromList 0 [1])) 5).2.thrown
      = some .notInvokable) ∧
    (compare intTruthy (pureCmp intCmp) (defaultExtract intTruthy)
        (compare intTruthy (pureCmp intCmp) (defaultExtract intTruthy) initState
          (Iter.badIter : Iter ℤ String) (Iter.fnIter (fromList 0 [1])) 5).1
        (Iter.fnIter (fromList 0 [2])) (Iter.fnIter (fromList 0 [3])) 7
      = ((compare intTruthy (pureCmp intCmp) (defaultExtract intTruthy) initState
          (Iter.badIter : Iter ℤ String) (Iter.fnIter (fromList 0 [1])) 5).1,
         ⟨some .alreadyComparing, none, [], 0, 0⟩)) :=
  ⟨Or.inl rfl,
   (compare_invalid_shape_poisons intTruthy (pureCmp intCmp) (defaultExtract intTruthy)
     Iter.badIter (Iter.fnIter (fromList 0 [1])) 5 (Or.inl rfl)).1,
   (compare_invalid_shape_poisons intTruthy (pureCmp intCmp) (defaultExtract intTruthy)
     Iter.badIter (Iter.fnIter (fromList 0 [1])) 5 (Or.inl rfl)).2.2.2.2
     (Iter.fnIter (fromList 0 [2])) (Iter.fnIter (fromList 0 [3])) 7⟩

end IterativeCompare
